import Mathlib

/-!
Verification of the `WebStore` backend of the transientdb library
(`src/web.rs`).

The in-memory queue (`VecDeque<StoredEvent>`) is the source of truth for
every synchronous operation; IndexedDB replication is fire-and-forget,
never influences a synchronous result, and its failures are only logged,
so the model below tracks the in-memory state.  JSON values
(`serde_json::Value`) are abstracted by a type `V` carrying decidable
equality (the `==` used by `StoredEvent::equals`) together with a size
function `vsize : V → Nat` standing for `value.to_string().len()`
(`WebStore::get_item_size`).  The front of the Lean list is the front of
the `VecDeque` (the oldest item).
-/

namespace TransientDb

/-- Persistence flag of the store (`PersistenceState` in `web.rs`). -/
inductive PersistenceState where
  | Persisted
  | MemoryOnly
deriving DecidableEq

/-- Configuration of the store (`WebConfig` in `web.rs`). -/
structure WebConfig where
  write_key : String
  database_name : String
  max_items : Nat
  max_fetch_size : Nat
deriving DecidableEq

/-- A stored event (`StoredEvent` in `web.rs`): the optional IndexedDB key
plus the event value. -/
structure StoredEvent (V : Type) where
  idb_key : Option Nat
  value : V
deriving DecidableEq

/-- A `Box<dyn Equivalent>` token: either a `StoredEvent` or a value of
any other concrete type, whose downcast to `StoredEvent` fails.  Foreign
concrete types are abstracted by a tag. -/
inductive EquivDyn (V : Type) where
  | stored (e : StoredEvent V)
  | foreign (typeId : Nat)
deriving DecidableEq

/-- `impl Equivalent for StoredEvent`, method `equals`: downcast the other
token to `StoredEvent`; when that succeeds, compare by `idb_key` if both
have one, otherwise by value; a failed downcast is never equal. -/
def StoredEvent.equalsDyn {V : Type} [DecidableEq V] (a : StoredEvent V) :
    EquivDyn V → Bool
  | .stored b =>
    match a.idb_key, b.idb_key with
    | some k1, some k2 => decide (k1 = k2)
    | _, _ => decide (a.value = b.value)
  | .foreign _ => false

/-- The `WebStore` state.  The `db : Option<Rc<IdbDatabase>>` handle is an
external JS object and is represented only through the persistence state;
all synchronous behaviour reads and writes the fields below. -/
structure WebStore (V : Type) where
  config : WebConfig
  items : List (StoredEvent V)
  temp_key_counter : Nat
  persistence_state : PersistenceState
deriving DecidableEq

/-- `WebStore::get_item_size`: the serialized length of the value,
abstracted by `vsize`. -/
def get_item_size {V : Type} (vsize : V → Nat) (item : StoredEvent V) : Nat :=
  vsize item.value

/-- `DataStore::has_data` for `WebStore`: `!self.items.is_empty()`. -/
def WebStore.has_data {V : Type} (s : WebStore V) : Bool :=
  !s.items.isEmpty

/-- `DataStore::reset` for `WebStore`: drain the in-memory queue.  The
per-item IndexedDB deletes are fire-and-forget and external. -/
def WebStore.reset {V : Type} (s : WebStore V) : WebStore V :=
  { s with items := [] }

/-- The eviction loop of `WebStore::append`:
`while self.items.len() > self.config.max_items { self.items.pop_front() }`.
Exactly one element is popped per iteration, so the initial length bounds
the number of iterations and serves as structural fuel. -/
def enforceMaxItems {α : Type} (maxItems : Nat) (l : List α) : List α :=
  go l.length l
where
  go : Nat → List α → List α
    | 0, acc => acc
    | fuel + 1, acc => if acc.length > maxItems then go fuel acc.tail else acc

/-- `DataStore::append` for `WebStore`: build the event with the next temp
key, push it to the tail, then evict from the head while the queue is over
`max_items`.  The Rust function returns `Ok(())` unconditionally; the
IndexedDB write and eviction deletes are fire-and-forget. -/
def WebStore.append {V : Type} (s : WebStore V) (data : V) : WebStore V :=
  let event : StoredEvent V := { idb_key := some s.temp_key_counter, value := data }
  { s with
      temp_key_counter := s.temp_key_counter + 1
      items := enforceMaxItems s.config.max_items (s.items ++ [event]) }

/-- The JSON object built by `WebStore::create_batch`, minus its `sentAt`
field: `sentAt` is the wall-clock time of the call (`js_sys::Date`), which
is outside this embedding. -/
structure Batch (V : Type) where
  batch : List V
  writeKey : String
deriving DecidableEq

/-- `WebStore::create_batch` (without the wall-clock `sentAt` field). -/
def create_batch {V : Type} (s : WebStore V) (items : List (StoredEvent V)) : Batch V :=
  { batch := items.map fun e => e.value
    writeKey := s.config.write_key }

/-- `DataResult` from `lib.rs`, instantiated at `Output = Value`; for
`WebStore::fetch` the removable tokens are clones of the fetched
`StoredEvent`s. -/
structure DataResult (V : Type) where
  data : Option (Batch V)
  removable : Option (List (StoredEvent V))
deriving DecidableEq

/-- The scanning loop of `WebStore::fetch`: walk the queue from the head;
stop before an item that would push `accumulated_size` over `maxBytes`,
and (when a count was given) before exceeding `count` items. -/
def fetchNumItems {V : Type} (vsize : V → Nat) (count : Option Nat) (maxBytes : Nat) :
    List (StoredEvent V) → Nat → Nat → Nat
  | [], _, numItems => numItems
  | item :: rest, accumulatedSize, numItems =>
    let itemSize := get_item_size vsize item
    if accumulatedSize + itemSize > maxBytes then numItems
    else
      match count with
      | some c =>
        if numItems ≥ c then numItems
        else fetchNumItems vsize count maxBytes rest (accumulatedSize + itemSize) (numItems + 1)
      | none => fetchNumItems vsize count maxBytes rest (accumulatedSize + itemSize) (numItems + 1)

/-- `DataStore::fetch` for `WebStore`.  The Rust signature takes
`&mut self` and returns `Result<Option<DataResult>>`; the body never
returns `Err` and never writes a field, so the embedding returns the
`Option` together with the resulting state.  A missing `max_bytes`
defaults to the configured `max_fetch_size`. -/
def WebStore.fetch {V : Type} (vsize : V → Nat) (s : WebStore V) (count : Option Nat)
    (max_bytes : Option Nat) : Option (DataResult V) × WebStore V :=
  let maxBytes := max_bytes.getD s.config.max_fetch_size
  let numItems := fetchNumItems vsize count maxBytes s.items 0 0
  if numItems = 0 then (none, s)
  else
    let items := s.items.take numItems
    (some { data := some (create_batch s items), removable := some items }, s)

/-- `DataStore::remove` for `WebStore`: retain exactly the queue items
matched by no token
(`!data.iter().any(|removable| removable.equals(item))`); always `Ok(())`.
Tokens are the `StoredEvent` clones that `fetch` produces; the IndexedDB
delete of each matched key is fire-and-forget. -/
def WebStore.remove {V : Type} [DecidableEq V] (s : WebStore V)
    (data : List (StoredEvent V)) : WebStore V :=
  { s with
      items := s.items.filter fun item =>
        !(data.any fun removable => removable.equalsDyn (.stored item)) }

/-- `WebStore::new`: panics (modelled as `none`) when
`max_fetch_size < 100` or `max_items == 0`; otherwise builds the store.
Whether IndexedDB opens (`dbAvailable`) only selects the persistence
state — it never fails construction.  Hydration reads the external
database; a fresh or absent database yields the empty queue modelled
here, with `temp_key_counter` left at `0`. -/
def WebStore.new {V : Type} (config : WebConfig) (dbAvailable : Bool) :
    Option (WebStore V) :=
  if config.max_fetch_size < 100 then none
  else if config.max_items = 0 then none
  else
    some { config := config
           items := []
           temp_key_counter := 0
           persistence_state := if dbAvailable then .Persisted else .MemoryOnly }

/-- One synchronous operation of the `DataStore` contract. -/
inductive Op (V : Type) where
  | append (v : V)
  | fetch (count : Option Nat) (max_bytes : Option Nat)
  | remove (tokens : List (StoredEvent V))
  | reset
deriving DecidableEq

/-- Run one operation on the store, keeping the resulting state. -/
def applyOp {V : Type} [DecidableEq V] (vsize : V → Nat) (s : WebStore V) :
    Op V → WebStore V
  | .append v => s.append v
  | .fetch c b => (WebStore.fetch vsize s c b).2
  | .remove ts => s.remove ts
  | .reset => s.reset

/-- Run a sequence of operations on the store. -/
def runOps {V : Type} [DecidableEq V] (vsize : V → Nat) (s : WebStore V)
    (ops : List (Op V)) : WebStore V :=
  ops.foldl (applyOp vsize) s

/-- Append a list of values one by one. -/
def WebStore.appendAll {V : Type} (s : WebStore V) (vs : List V) : WebStore V :=
  vs.foldl WebStore.append s

/-- Cumulative serialized size of a list of stored events, as `fetch`
accumulates it. -/
def sizeSum {V : Type} (vsize : V → Nat) (l : List (StoredEvent V)) : Nat :=
  (l.map (get_item_size vsize)).sum

/-- The last `m` elements of a list: what head-eviction leaves behind. -/
def lastN {α : Type} (m : Nat) (l : List α) : List α :=
  l.drop (l.length - m)

/-- Well-formedness of reachable stores: every queued item carries an
IndexedDB key below the temp-key counter, and keys are pairwise distinct
(append assigns fresh increasing keys). -/
def wellFormed {V : Type} (s : WebStore V) : Prop :=
  (∀ e ∈ s.items, ∃ k, e.idb_key = some k ∧ k < s.temp_key_counter)
  ∧ (s.items.map StoredEvent.idb_key).Nodup

/-! Concrete material for witnesses and counterexamples, at `V := Nat`:
a value `n : Nat` stands for a JSON value whose serialization is `n`
bytes long. -/

/-- Size function for the concrete examples. -/
def natSize (v : Nat) : Nat := v

/-- A roomy configuration. -/
def cfgA : WebConfig :=
  { write_key := "wk", database_name := "db", max_items := 10, max_fetch_size := 1000 }

/-- A configuration with a small item bound. -/
def cfgB : WebConfig :=
  { write_key := "wk", database_name := "db", max_items := 3, max_fetch_size := 1000 }

/-- A configuration at the minimum legal fetch size. -/
def cfgC : WebConfig :=
  { write_key := "wk", database_name := "db", max_items := 10, max_fetch_size := 100 }

/-- A freshly constructed memory-only store. -/
def baseStore (cfg : WebConfig) : WebStore Nat :=
  { config := cfg, items := [], temp_key_counter := 0, persistence_state := .MemoryOnly }

/-- Four items of sizes 10, 20, 30, 40. -/
def storeA : WebStore Nat := (baseStore cfgA).appendAll [10, 20, 30, 40]

/-- Two items of sizes 60 and 61 under `max_fetch_size = 100`. -/
def storeC : WebStore Nat := (baseStore cfgC).appendAll [60, 61]

/-- The result of `storeA.fetch (some 2) none`. -/
def resA : DataResult Nat :=
  { data := some { batch := [10, 20], writeKey := "wk" }
    removable := some [{ idb_key := some 0, value := 10 },
                       { idb_key := some 1, value := 20 }] }

/-- The tokens of `resA`. -/
def toksA : List (StoredEvent Nat) :=
  [{ idb_key := some 0, value := 10 }, { idb_key := some 1, value := 20 }]

/-- The result of fetching again after removing `toksA`. -/
def resA2 : DataResult Nat :=
  { data := some { batch := [30, 40], writeKey := "wk" }
    removable := some [{ idb_key := some 2, value := 30 },
                       { idb_key := some 3, value := 40 }] }

/-- The tokens of `resA2`. -/
def toksA2 : List (StoredEvent Nat) :=
  [{ idb_key := some 2, value := 30 }, { idb_key := some 3, value := 40 }]

/-- A token matching nothing in `storeA` (its key is fresh and its value
differs from every stored value). -/
def toksStale : List (StoredEvent Nat) :=
  [{ idb_key := some 99, value := 5 }]

/-- The head of `storeA.items`. -/
def hd4 : StoredEvent Nat := { idb_key := some 0, value := 10 }

/-- The tail of `storeA.items`. -/
def tl4 : List (StoredEvent Nat) :=
  [{ idb_key := some 1, value := 20 }, { idb_key := some 2, value := 30 },
   { idb_key := some 3, value := 40 }]

/-- An operation sequence for the length-invariant witness. -/
def opsB : List (Op Nat) :=
  [.append 1, .append 2, .append 3, .append 4, .fetch (some 2) none,
   .remove [{ idb_key := some 1, value := 2 }], .reset, .append 5, .append 6]

/-- The store `WebStore.new cfgB true` produces. -/
def storeB0 : WebStore Nat :=
  { config := cfgB, items := [], temp_key_counter := 0, persistence_state := .Persisted }

/-! ## The eviction loop -/

theorem enforceMaxItems_go_eq_drop {α : Type} (m : Nat) :
    ∀ (fuel : Nat) (l : List α), l.length ≤ fuel →
      enforceMaxItems.go m fuel l = l.drop (l.length - m) := by
  intro fuel
  induction fuel with
  | zero =>
    intro l h
    have hl : l = [] := List.length_eq_zero.mp (Nat.le_zero.mp h)
    subst hl; simp [enforceMaxItems.go]
  | succ fuel ih =>
    intro l h
    unfold enforceMaxItems.go
    split
    · next hgt =>
      cases l with
      | nil => simp at hgt
      | cons a t =>
        have ht := ih t (by simp only [List.length_cons] at h; omega)
        simp only [List.tail_cons, ht]
        have hs : (a :: t).length - m = (t.length - m) + 1 := by
          simp only [List.length_cons] at hgt ⊢; omega
        rw [hs, List.drop_succ_cons]
    · next hle =>
      have h0 : l.length - m = 0 := by omega
      rw [h0, List.drop_zero]

theorem enforceMaxItems_eq_drop {α : Type} (m : Nat) (l : List α) :
    enforceMaxItems m l = l.drop (l.length - m) :=
  enforceMaxItems_go_eq_drop m l.length l (Nat.le_refl _)

theorem enforceMaxItems_eq_lastN {α : Type} (m : Nat) (l : List α) :
    enforceMaxItems m l = lastN m l :=
  enforceMaxItems_eq_drop m l

theorem length_enforceMaxItems_le {α : Type} (m : Nat) (l : List α) :
    (enforceMaxItems m l).length ≤ m := by
  rw [enforceMaxItems_eq_drop, List.length_drop]; omega

/-! ## `lastN` algebra -/

theorem lastN_of_length_le {α : Type} {m : Nat} {l : List α} (h : l.length ≤ m) :
    lastN m l = l := by
  unfold lastN
  rw [Nat.sub_eq_zero_of_le h, List.drop_zero]

theorem map_lastN {α β : Type} (f : α → β) (m : Nat) (l : List α) :
    (lastN m l).map f = lastN m (l.map f) := by
  unfold lastN
  rw [List.map_drop, List.length_map]

theorem lastN_lastN_append {α : Type} (m : Nat) (l r : List α) :
    lastN m (lastN m l ++ r) = lastN m (l ++ r) := by
  unfold lastN
  rw [← List.drop_append_of_le_length (Nat.sub_le l.length m), List.drop_drop]
  simp only [List.length_append, List.length_drop]
  congr 1
  omega

/-! ## Fetch never writes state -/

theorem fetch_snd {V : Type} (vsize : V → Nat) (s : WebStore V) (c b : Option Nat) :
    (WebStore.fetch vsize s c b).2 = s := by
  simp only [WebStore.fetch]
  split <;> rfl

/-! ## Token equality basics -/

theorem equalsDyn_self {V : Type} [DecidableEq V] (a : StoredEvent V) :
    a.equalsDyn (.stored a) = true := by
  cases h : a.idb_key <;> simp [StoredEvent.equalsDyn, h]

/-! ## Running operation sequences -/

theorem runOps_nil {V : Type} [DecidableEq V] (vsize : V → Nat) (s : WebStore V) :
    runOps vsize s [] = s := rfl

theorem runOps_cons {V : Type} [DecidableEq V] (vsize : V → Nat) (s : WebStore V)
    (op : Op V) (rest : List (Op V)) :
    runOps vsize s (op :: rest) = runOps vsize (applyOp vsize s op) rest := rfl

theorem applyOp_config {V : Type} [DecidableEq V] (vsize : V → Nat) (s : WebStore V)
    (op : Op V) : (applyOp vsize s op).config = s.config := by
  cases op with
  | append v => rfl
  | fetch c b => simp [applyOp, fetch_snd]
  | remove ts => rfl
  | reset => rfl

theorem applyOp_length_le {V : Type} [DecidableEq V] (vsize : V → Nat) (s : WebStore V)
    (op : Op V) (h : s.items.length ≤ s.config.max_items) :
    (applyOp vsize s op).items.length ≤ s.config.max_items := by
  cases op with
  | append v =>
    simp only [applyOp, WebStore.append]
    exact length_enforceMaxItems_le _ _
  | fetch c b => simp [applyOp, fetch_snd, h]
  | remove ts =>
    simp only [applyOp, WebStore.remove]
    exact le_trans (List.length_filter_le _ _) h
  | reset => simp [applyOp, WebStore.reset]

theorem runOps_length_le {V : Type} [DecidableEq V] (vsize : V → Nat) :
    ∀ (ops : List (Op V)) (s : WebStore V), s.items.length ≤ s.config.max_items →
      (runOps vsize s ops).items.length ≤ s.config.max_items := by
  intro ops
  induction ops with
  | nil => intro s h; exact h
  | cons op rest ih =>
    intro s h
    rw [runOps_cons]
    have h1 := applyOp_length_le vsize s op h
    have h2 := applyOp_config vsize s op
    have h3 := ih (applyOp vsize s op) (by rw [h2]; exact h1)
    rw [h2] at h3
    exact h3

/-- C1: a store constructed with `max_items = M` keeps its in-memory queue
length at most `M` after every operation of every `append`/`fetch`/
`remove`/`reset` sequence: `append` evicts from the head down to the
bound, `remove` only shrinks the queue, `reset` empties it and `fetch`
leaves it untouched. -/
theorem webstore_C1_length_invariant {V : Type} [DecidableEq V] (vsize : V → Nat)
    (cfg : WebConfig) (avail : Bool) (s0 : WebStore V)
    (hnew : WebStore.new cfg avail = some s0) (ops : List (Op V)) :
    (runOps vsize s0 ops).items.length ≤ cfg.max_items := by
  have hcfg : s0.config = cfg ∧ s0.items = [] := by
    unfold WebStore.new at hnew
    split at hnew
    · exact absurd hnew (by simp)
    · split at hnew
      · exact absurd hnew (by simp)
      · injection hnew with h
        subst h
        exact ⟨rfl, rfl⟩
  obtain ⟨hc, hi⟩ := hcfg
  have hlen : s0.items.length ≤ s0.config.max_items := by
    rw [hi]
    exact Nat.zero_le _
  have := runOps_length_le vsize ops s0 hlen
  rw [hc] at this
  exact this

/-- Witness for C1: a concrete store with `max_items = 3` and a sequence
mixing appends past the bound, a fetch, a remove and a reset. -/
theorem webstore_C1_length_invariant_witness :
    WebStore.new cfgB true = some storeB0
    ∧ (runOps natSize storeB0 opsB).items.length ≤ cfgB.max_items :=
  ⟨by decide, webstore_C1_length_invariant natSize cfgB true storeB0 (by decide) opsB⟩

/-- C6: `fetch` never mutates the queue: the state it returns is the
input state, so fetching twice with the same arguments and no intervening
`remove` yields identical results.  The modelled batch omits the
wall-clock `sentAt` field of `create_batch`, which is outside the
embedding. -/
theorem webstore_C6_fetch_pure {V : Type} (vsize : V → Nat) (s : WebStore V)
    (c b : Option Nat) :
    (WebStore.fetch vsize s c b).2 = s
    ∧ (WebStore.fetch vsize (WebStore.fetch vsize s c b).2 c b).1
        = (WebStore.fetch vsize s c b).1 :=
  ⟨fetch_snd vsize s c b, by rw [fetch_snd]⟩

theorem fetchNumItems_count_zero {V : Type} (vsize : V → Nat) (mb : Nat)
    (l : List (StoredEvent V)) : fetchNumItems vsize (some 0) mb l 0 0 = 0 := by
  cases l with
  | nil => rfl
  | cons x rest =>
    simp only [fetchNumItems]
    split
    · rfl
    · simp

/-- C10: for every store, `fetch(Some 0, b)` returns an absent result (not
an error and not an empty batch), leaves the state unchanged, and
`has_data` still reports `true` whenever the queue is non-empty. -/
theorem webstore_C10_fetch_zero {V : Type} (vsize : V → Nat) (s : WebStore V)
    (b : Option Nat) :
    (WebStore.fetch vsize s (some 0) b).1 = none
    ∧ (WebStore.fetch vsize s (some 0) b).2 = s
    ∧ (s.items ≠ [] → (WebStore.fetch vsize s (some 0) b).2.has_data = true) := by
  refine ⟨?_, fetch_snd vsize s (some 0) b, ?_⟩
  · simp [WebStore.fetch, fetchNumItems_count_zero]
  · intro hne
    rw [fetch_snd]
    unfold WebStore.has_data
    cases hitems : s.items with
    | nil => exact absurd hitems hne
    | cons a t => rfl

/-- Witness for C10: the four-item concrete store. -/
theorem webstore_C10_fetch_zero_witness :
    storeA.items ≠ []
    ∧ (WebStore.fetch natSize storeA (some 0) none).1 = none
    ∧ (WebStore.fetch natSize storeA (some 0) none).2.has_data = true :=
  ⟨by decide, (webstore_C10_fetch_zero natSize storeA none).1,
    (webstore_C10_fetch_zero natSize storeA none).2.2 (by decide)⟩

/-! ## Append and eviction -/

theorem new_some_elim {V : Type} {cfg : WebConfig} {avail : Bool} {s0 : WebStore V}
    (hnew : WebStore.new cfg avail = some s0) :
    s0.config = cfg ∧ s0.items = [] ∧ s0.temp_key_counter = 0 := by
  unfold WebStore.new at hnew
  split at hnew
  · exact absurd hnew (by simp)
  · split at hnew
    · exact absurd hnew (by simp)
    · injection hnew with h
      subst h
      exact ⟨rfl, rfl, rfl⟩

theorem append_items {V : Type} (s : WebStore V) (v : V) :
    (s.append v).items =
      lastN s.config.max_items
        (s.items ++ [{ idb_key := some s.temp_key_counter, value := v }]) := by
  simp only [WebStore.append]
  exact enforceMaxItems_eq_lastN _ _

theorem append_config {V : Type} (s : WebStore V) (v : V) :
    (s.append v).config = s.config := rfl

theorem appendAll_nil {V : Type} (s : WebStore V) : s.appendAll [] = s := rfl

theorem appendAll_cons {V : Type} (s : WebStore V) (v : V) (vs : List V) :
    s.appendAll (v :: vs) = (s.append v).appendAll vs := rfl

theorem appendAll_items_map {V : Type} :
    ∀ (vs : List V) (s : WebStore V), s.items.length ≤ s.config.max_items →
      (s.appendAll vs).items.map (fun e => e.value)
        = lastN s.config.max_items ((s.items.map fun e => e.value) ++ vs) := by
  intro vs
  induction vs with
  | nil =>
    intro s h
    rw [appendAll_nil, List.append_nil]
    exact (lastN_of_length_le (by simpa using h)).symm
  | cons v vs ih =>
    intro s h
    rw [appendAll_cons]
    have hlen : (s.append v).items.length ≤ (s.append v).config.max_items := by
      rw [append_config]
      simp only [WebStore.append]
      exact length_enforceMaxItems_le _ _
    have hih := ih (s.append v) hlen
    rw [hih, append_config, append_items, map_lastN]
    simp only [List.map_append, List.map_cons, List.map_nil]
    rw [lastN_lastN_append]
    simp [List.append_assoc]

/-- C2: appending `N > M` values to a freshly constructed store with
`max_items = M` leaves exactly the `M` most recently appended values, in
insertion order: the oldest `N - M` values have been evicted from the
head. -/
theorem webstore_C2_eviction_keeps_last {V : Type} (cfg : WebConfig) (avail : Bool)
    (s0 : WebStore V) (vs : List V) (hnew : WebStore.new cfg avail = some s0)
    (_hover : vs.length > cfg.max_items) :
    (s0.appendAll vs).items.map (fun e => e.value)
      = vs.drop (vs.length - cfg.max_items) := by
  obtain ⟨hc, hi, -⟩ := new_some_elim hnew
  have h0 : s0.items.length ≤ s0.config.max_items := by
    rw [hi]
    exact Nat.zero_le _
  have hmain := appendAll_items_map vs s0 h0
  rw [hi, hc] at hmain
  simpa [lastN] using hmain

/-- Witness for C2: `max_items = 3`, five appends, the last three survive. -/
theorem webstore_C2_eviction_keeps_last_witness :
    WebStore.new cfgB true = some storeB0
    ∧ ([0, 1, 2, 3, 4] : List Nat).length > cfgB.max_items
    ∧ (storeB0.appendAll [0, 1, 2, 3, 4]).items.map (fun e => e.value)
        = ([0, 1, 2, 3, 4] : List Nat).drop
            (([0, 1, 2, 3, 4] : List Nat).length - cfgB.max_items) :=
  ⟨by decide, by decide,
    webstore_C2_eviction_keeps_last cfgB true storeB0 [0, 1, 2, 3, 4]
      (by decide) (by decide)⟩

/-! ## Remove: stale tokens and idempotence -/

theorem remove_filter_self {V : Type} [DecidableEq V] (tokens : List (StoredEvent V))
    (l : List (StoredEvent V)) :
    ((l.filter fun item => !(tokens.any fun r => r.equalsDyn (.stored item))).filter
        fun item => !(tokens.any fun r => r.equalsDyn (.stored item)))
      = l.filter fun item => !(tokens.any fun r => r.equalsDyn (.stored item)) := by
  apply List.filter_eq_self.mpr
  intro a ha
  exact (List.mem_filter.mp ha).2

/-- C7: `remove` with tokens matching nothing currently queued leaves the
store unchanged (the Rust `remove` returns `Ok(())` unconditionally), and
`remove` is idempotent: removing the same token set twice equals removing
it once. -/
theorem webstore_C7_remove_stale {V : Type} [DecidableEq V] (s : WebStore V)
    (tokens : List (StoredEvent V)) :
    ((∀ t ∈ tokens, ∀ it ∈ s.items, t.equalsDyn (.stored it) = false) →
        s.remove tokens = s)
    ∧ (s.remove tokens).remove tokens = s.remove tokens := by
  constructor
  · intro hnone
    have hfilter : (s.items.filter fun item =>
        !(tokens.any fun removable => removable.equalsDyn (.stored item))) = s.items := by
      apply List.filter_eq_self.mpr
      intro a ha
      have hany : (tokens.any fun removable => removable.equalsDyn (.stored a)) = false := by
        apply List.any_eq_false.mpr
        intro t ht
        simp [hnone t ht a ha]
      simp [hany]
    simp only [WebStore.remove, hfilter]
  · simp only [WebStore.remove, remove_filter_self]

/-- Witness for C7: a token with a fresh key and an unmatched value
against the four-item concrete store. -/
theorem webstore_C7_remove_stale_witness :
    (∀ t ∈ toksStale, ∀ it ∈ storeA.items, t.equalsDyn (.stored it) = false)
    ∧ storeA.remove toksStale = storeA
    ∧ (storeA.remove toksStale).remove toksStale = storeA.remove toksStale :=
  ⟨by decide, (webstore_C7_remove_stale storeA toksStale).1 (by decide),
    (webstore_C7_remove_stale storeA toksStale).2⟩

/-- C8: two `StoredEvent` tokens compare equal iff they carry the same
IndexedDB key when both have one, and otherwise iff their value contents
are equal; comparison against a token of any other concrete type is never
equal, because the downcast fails. -/
theorem webstore_C8_token_equality {V : Type} [DecidableEq V] (a b : StoredEvent V) :
    (a.equalsDyn (.stored b) = true ↔
      ((∃ k, a.idb_key = some k ∧ b.idb_key = some k)
        ∨ ((a.idb_key = none ∨ b.idb_key = none) ∧ a.value = b.value)))
    ∧ ∀ t, a.equalsDyn (.foreign t) = false := by
  constructor
  · cases ha : a.idb_key <;> cases hb : b.idb_key <;>
      simp [StoredEvent.equalsDyn, ha, hb, eq_comm]
  · intro t
    rfl

/-- C9: construction fails exactly when `max_items = 0` or
`max_fetch_size < 100` (the Rust constructor panics before any operation
is possible, producing no store), and whether construction yields a store
never depends on IndexedDB availability — availability only selects the
persistence state. -/
theorem webstore_C9_construction {V : Type} (cfg : WebConfig) (avail : Bool) :
    ((WebStore.new (V := V) cfg avail = none)
        ↔ (cfg.max_items = 0 ∨ cfg.max_fetch_size < 100))
    ∧ ((WebStore.new (V := V) cfg avail).isSome
        = (WebStore.new (V := V) cfg (!avail)).isSome) := by
  constructor
  · by_cases h1 : cfg.max_fetch_size < 100
    · simp [WebStore.new, h1]
    · by_cases h2 : cfg.max_items = 0
      · simp [WebStore.new, h1, h2]
      · simp [WebStore.new, h1, h2]
  · by_cases h1 : cfg.max_fetch_size < 100
    · simp [WebStore.new, h1]
    · by_cases h2 : cfg.max_items = 0
      · simp [WebStore.new, h1, h2]
      · simp [WebStore.new, h1, h2]

/-! ## The fetch scanning loop -/

theorem sizeSum_nil {V : Type} (vsize : V → Nat) : sizeSum vsize [] = 0 := rfl

theorem sizeSum_cons {V : Type} (vsize : V → Nat) (x : StoredEvent V)
    (t : List (StoredEvent V)) :
    sizeSum vsize (x :: t) = get_item_size vsize x + sizeSum vsize t := by
  simp [sizeSum]

theorem fetchNumItems_ge {V : Type} (vsize : V → Nat) (count : Option Nat) (mb : Nat) :
    ∀ (l : List (StoredEvent V)) (acc n : Nat), n ≤ fetchNumItems vsize count mb l acc n := by
  intro l
  induction l with
  | nil => intro acc n; exact Nat.le_refl _
  | cons x rest ih =>
    intro acc n
    cases count with
    | none =>
      simp only [fetchNumItems]
      split
      · exact Nat.le_refl _
      · exact Nat.le_trans (Nat.le_succ n) (ih _ _)
    | some c =>
      simp only [fetchNumItems]
      split
      · exact Nat.le_refl _
      · split
        · exact Nat.le_refl _
        · exact Nat.le_trans (Nat.le_succ n) (ih _ _)

theorem fetchNumItems_le {V : Type} (vsize : V → Nat) (count : Option Nat) (mb : Nat) :
    ∀ (l : List (StoredEvent V)) (acc n : Nat),
      fetchNumItems vsize count mb l acc n ≤ n + l.length := by
  intro l
  induction l with
  | nil => intro acc n; simp [fetchNumItems]
  | cons x rest ih =>
    intro acc n
    cases count with
    | none =>
      simp only [fetchNumItems, List.length_cons]
      split
      · omega
      · have := ih (acc + get_item_size vsize x) (n + 1)
        omega
    | some c =>
      simp only [fetchNumItems, List.length_cons]
      split
      · omega
      · split
        · omega
        · have := ih (acc + get_item_size vsize x) (n + 1)
          omega

theorem fetchNumItems_size_le {V : Type} (vsize : V → Nat) (count : Option Nat) (mb : Nat) :
    ∀ (l : List (StoredEvent V)) (acc n : Nat), acc ≤ mb →
      acc + sizeSum vsize (l.take (fetchNumItems vsize count mb l acc n - n)) ≤ mb := by
  intro l
  induction l with
  | nil =>
    intro acc n h
    simpa [fetchNumItems, sizeSum] using h
  | cons x rest ih =>
    intro acc n h
    cases count with
    | none =>
      simp only [fetchNumItems]
      split
      · simpa [Nat.sub_self, sizeSum] using h
      · have hge := fetchNumItems_ge vsize none mb rest (acc + get_item_size vsize x) (n + 1)
        have hrec := ih (acc + get_item_size vsize x) (n + 1) (by omega)
        have hr : fetchNumItems vsize none mb rest (acc + get_item_size vsize x) (n + 1) - n
            = (fetchNumItems vsize none mb rest (acc + get_item_size vsize x) (n + 1)
                - (n + 1)) + 1 := by omega
        rw [hr, List.take_succ_cons, sizeSum_cons]
        omega
    | some c =>
      simp only [fetchNumItems]
      split
      · simpa [Nat.sub_self, sizeSum] using h
      · split
        · simpa [Nat.sub_self, sizeSum] using h
        · have hge := fetchNumItems_ge vsize (some c) mb rest
            (acc + get_item_size vsize x) (n + 1)
          have hrec := ih (acc + get_item_size vsize x) (n + 1) (by omega)
          have hr : fetchNumItems vsize (some c) mb rest (acc + get_item_size vsize x) (n + 1) - n
              = (fetchNumItems vsize (some c) mb rest (acc + get_item_size vsize x) (n + 1)
                  - (n + 1)) + 1 := by omega
          rw [hr, List.take_succ_cons, sizeSum_cons]
          omega

theorem fetchNumItems_max {V : Type} (vsize : V → Nat) (mb : Nat) :
    ∀ (l : List (StoredEvent V)) (acc n m : Nat), m ≤ l.length →
      acc + sizeSum vsize (l.take m) ≤ mb →
      n + m ≤ fetchNumItems vsize none mb l acc n := by
  intro l
  induction l with
  | nil =>
    intro acc n m hm _
    simp only [List.length_nil, Nat.le_zero] at hm
    simp [fetchNumItems, hm]
  | cons x rest ih =>
    intro acc n m hm hsz
    cases m with
    | zero =>
      have := fetchNumItems_ge vsize none mb (x :: rest) acc n
      omega
    | succ m' =>
      rw [List.take_succ_cons, sizeSum_cons] at hsz
      simp only [fetchNumItems]
      rw [if_neg (by omega)]
      have := ih (acc + get_item_size vsize x) (n + 1) m'
        (by simpa using hm) (by omega)
      omega

theorem fetchNumItems_le_count {V : Type} (vsize : V → Nat) (mb c : Nat) :
    ∀ (l : List (StoredEvent V)) (acc n : Nat), n ≤ c →
      fetchNumItems vsize (some c) mb l acc n ≤ c := by
  intro l
  induction l with
  | nil => intro acc n h; simpa [fetchNumItems] using h
  | cons x rest ih =>
    intro acc n h
    simp only [fetchNumItems]
    split
    · exact h
    · split
      · exact h
      · next hlt =>
        exact ih _ (n + 1) (by omega)

theorem fetchNumItems_count_exact {V : Type} (vsize : V → Nat) (mb c : Nat) :
    ∀ (l : List (StoredEvent V)) (acc n : Nat), n ≤ c → c - n ≤ l.length →
      acc + sizeSum vsize (l.take (c - n)) ≤ mb →
      fetchNumItems vsize (some c) mb l acc n = c := by
  intro l
  induction l with
  | nil =>
    intro acc n h1 h2 _
    simp only [List.length_nil, Nat.le_zero] at h2
    simp only [fetchNumItems]
    omega
  | cons x rest ih =>
    intro acc n h1 h2 h3
    rcases Nat.eq_or_lt_of_le h1 with heq | hlt
    · subst heq
      simp only [fetchNumItems]
      split <;> simp
    · have hcn : c - n = (c - (n + 1)) + 1 := by omega
      rw [hcn, List.take_succ_cons, sizeSum_cons] at h3
      simp only [fetchNumItems]
      rw [if_neg (by omega), if_neg (by omega)]
      exact ih (acc + get_item_size vsize x) (n + 1) (by omega)
        (by simp only [List.length_cons] at h2; omega) (by omega)

theorem fetchNumItems_none_zero_iff {V : Type} (vsize : V → Nat) (mb : Nat)
    (x : StoredEvent V) (xs : List (StoredEvent V)) :
    fetchNumItems vsize none mb (x :: xs) 0 0 = 0 ↔ mb < vsize x.value := by
  constructor
  · intro h0
    by_contra hnot
    have hle : vsize x.value ≤ mb := by omega
    have h1 : fetchNumItems vsize none mb (x :: xs) 0 0
        = fetchNumItems vsize none mb xs (0 + vsize x.value) 1 := by
      simp only [fetchNumItems, get_item_size]
      rw [if_neg (by omega)]
    have h2 := fetchNumItems_ge vsize none mb xs (0 + vsize x.value) 1
    omega
  · intro hlt
    simp only [fetchNumItems, get_item_size]
    rw [if_pos (by omega)]

theorem fetch_fst_eq {V : Type} (vsize : V → Nat) (s : WebStore V) (c b : Option Nat) :
    (WebStore.fetch vsize s c b).1
      = (if fetchNumItems vsize c (b.getD s.config.max_fetch_size) s.items 0 0 = 0 then none
         else some { data := some (create_batch s (s.items.take
                        (fetchNumItems vsize c (b.getD s.config.max_fetch_size) s.items 0 0)))
                     removable := some (s.items.take
                        (fetchNumItems vsize c (b.getD s.config.max_fetch_size) s.items 0 0)) }) := by
  by_cases h : fetchNumItems vsize c (b.getD s.config.max_fetch_size) s.items 0 0 = 0 <;>
    simp [WebStore.fetch, h]

/-- C4: on a non-empty queue, `fetch(None, Some b)` with only a byte bound
returns the longest head segment whose cumulative serialized size stays
within `b`, never counting an item partially; when even the single oldest
item exceeds `b`, the result is absent (`Ok(None)`), not an error. -/
theorem webstore_C4_byte_bound {V : Type} (vsize : V → Nat) (s : WebStore V) (b : Nat)
    (x : StoredEvent V) (xs : List (StoredEvent V)) (hitems : s.items = x :: xs) :
    ((WebStore.fetch vsize s none (some b)).1 = none ↔ b < vsize x.value)
    ∧ ∀ res toks, (WebStore.fetch vsize s none (some b)).1 = some res →
        res.removable = some toks →
        toks = s.items.take toks.length
        ∧ 0 < toks.length
        ∧ sizeSum vsize toks ≤ b
        ∧ ∀ m, m ≤ s.items.length → sizeSum vsize (s.items.take m) ≤ b →
            m ≤ toks.length := by
  have hf := fetch_fst_eq vsize s none (some b)
  rw [show ((some b).getD s.config.max_fetch_size) = b from rfl] at hf
  constructor
  · rw [hf]
    by_cases h0 : fetchNumItems vsize none b s.items 0 0 = 0
    · rw [if_pos h0]
      rw [hitems] at h0
      exact iff_of_true rfl ((fetchNumItems_none_zero_iff vsize b x xs).mp h0)
    · rw [if_neg h0]
      apply iff_of_false
      · simp
      · intro hlt
        apply h0
        rw [hitems]
        exact (fetchNumItems_none_zero_iff vsize b x xs).mpr hlt
  · intro res toks hres htoks
    rw [hf] at hres
    by_cases h0 : fetchNumItems vsize none b s.items 0 0 = 0
    · rw [if_pos h0] at hres
      exact absurd hres (by simp)
    · rw [if_neg h0] at hres
      injection hres with hres
      subst hres
      simp only [Option.some.injEq] at htoks
      have hnle : fetchNumItems vsize none b s.items 0 0 ≤ s.items.length := by
        have := fetchNumItems_le vsize none b s.items 0 0
        omega
      have hlen : toks.length = fetchNumItems vsize none b s.items 0 0 := by
        rw [← htoks, List.length_take]
        omega
      refine ⟨?_, ?_, ?_, ?_⟩
      · rw [hlen]
        exact htoks.symm
      · rw [hlen]
        exact Nat.pos_of_ne_zero h0
      · rw [← htoks]
        have := fetchNumItems_size_le vsize none b s.items 0 0 (Nat.zero_le _)
        simpa using this
      · intro m hm hsz
        rw [hlen]
        have := fetchNumItems_max vsize b s.items 0 0 m hm (by simpa using hsz)
        omega

/-- Witness for C4: the four-item store with sizes 10, 20, 30, 40 and
byte bound 35: the first two items fit and no longer head segment does. -/
theorem webstore_C4_byte_bound_witness :
    storeA.items = hd4 :: tl4
    ∧ ((WebStore.fetch natSize storeA none (some 35)).1 = none ↔ 35 < natSize hd4.value)
    ∧ (toksA = storeA.items.take toksA.length
        ∧ 0 < toksA.length
        ∧ sizeSum natSize toksA ≤ 35
        ∧ ∀ m, m ≤ storeA.items.length → sizeSum natSize (storeA.items.take m) ≤ 35 →
            m ≤ toksA.length) :=
  ⟨by decide, (webstore_C4_byte_bound natSize storeA 35 hd4 tl4 (by decide)).1,
    (webstore_C4_byte_bound natSize storeA 35 hd4 tl4 (by decide)).2 resA toksA
      (by decide) (by decide)⟩

/-- C5 (amended): `fetch(Some n, None)` returns at most `n` items, and
when the queue holds at least `n ≥ 1` items whose cumulative serialized
size fits in the configured `max_fetch_size` (the default byte bound for
`None`), it returns exactly the oldest `n` items in queue order. -/
theorem webstore_C5_count_bound {V : Type} (vsize : V → Nat) (s : WebStore V) (n : Nat) :
    (∀ res toks, (WebStore.fetch vsize s (some n) none).1 = some res →
        res.removable = some toks → toks.length ≤ n)
    ∧ (1 ≤ n → n ≤ s.items.length →
        sizeSum vsize (s.items.take n) ≤ s.config.max_fetch_size →
        (WebStore.fetch vsize s (some n) none).1
          = some { data := some (create_batch s (s.items.take n))
                   removable := some (s.items.take n) }) := by
  have hf := fetch_fst_eq vsize s (some n) none
  rw [show ((none : Option Nat).getD s.config.max_fetch_size) = s.config.max_fetch_size
    from rfl] at hf
  constructor
  · intro res toks hres htoks
    rw [hf] at hres
    by_cases h0 : fetchNumItems vsize (some n) s.config.max_fetch_size s.items 0 0 = 0
    · rw [if_pos h0] at hres
      exact absurd hres (by simp)
    · rw [if_neg h0] at hres
      injection hres with hres
      subst hres
      simp only [Option.some.injEq] at htoks
      have hcnt := fetchNumItems_le_count vsize s.config.max_fetch_size n s.items 0 0
        (Nat.zero_le _)
      rw [← htoks, List.length_take]
      omega
  · intro h1 h2 h3
    have hex := fetchNumItems_count_exact vsize s.config.max_fetch_size n s.items 0 0
      (Nat.zero_le _) (by omega) (by simpa using h3)
    rw [hf, hex, if_neg (by omega)]

/-- Counterexample to C5 as stated: `storeC` is reachable
(`WebStore.new cfgC false`, then appending two values of serialized sizes
60 and 61) and holds two items, yet under the configured
`max_fetch_size = 100` the call `fetch(Some 2, None)` returns a batch of
one item, not two: the byte bound also applies when `max_bytes` is
`None`. -/
theorem webstore_C5_counterexample :
    WebStore.new cfgC false = some (baseStore cfgC)
    ∧ storeC = (baseStore cfgC).appendAll [60, 61]
    ∧ storeC.items.length = 2
    ∧ ((WebStore.fetch natSize storeC (some 2) none).1.map
        fun r => (r.removable.getD []).length) = some 1 :=
  ⟨by decide, rfl, by decide, by decide⟩

/-- Witness for C5 (amended): the four-item store, `n = 3`, whose oldest
three items have total size 60 ≤ 1000. -/
theorem webstore_C5_count_bound_witness :
    1 ≤ 3
    ∧ 3 ≤ storeA.items.length
    ∧ sizeSum natSize (storeA.items.take 3) ≤ storeA.config.max_fetch_size
    ∧ (WebStore.fetch natSize storeA (some 3) none).1
        = some { data := some (create_batch storeA (storeA.items.take 3))
                 removable := some (storeA.items.take 3) } :=
  ⟨by decide, by decide, by decide,
    (webstore_C5_count_bound natSize storeA 3).2 (by decide) (by decide) (by decide)⟩

/-! ## Remove of fetched tokens -/

theorem take_drop_key_disjoint {V : Type} {l : List (StoredEvent V)}
    (hnodup : (l.map StoredEvent.idb_key).Nodup) (n : Nat) :
    ∀ t ∈ l.take n, ∀ d ∈ l.drop n, t.idb_key ≠ d.idb_key := by
  intro t ht d hd heq
  have hsplit : l.map StoredEvent.idb_key
      = (l.take n).map StoredEvent.idb_key ++ (l.drop n).map StoredEvent.idb_key := by
    rw [← List.map_append, List.take_append_drop]
  rw [hsplit] at hnodup
  have hdisj := List.disjoint_of_nodup_append hnodup
  apply hdisj (List.mem_map_of_mem _ ht)
  rw [heq]
  exact List.mem_map_of_mem _ hd

theorem filter_not_any_take_drop {V : Type} [DecidableEq V]
    (tk dr : List (StoredEvent V))
    (hkeys : ∀ e ∈ tk ++ dr, e.idb_key.isSome)
    (hnodup : ((tk ++ dr).map StoredEvent.idb_key).Nodup) :
    ((tk ++ dr).filter fun item => !(tk.any fun r => r.equalsDyn (.stored item))) = dr := by
  rw [List.filter_append]
  have h1 : (tk.filter fun item => !(tk.any fun r => r.equalsDyn (.stored item))) = [] := by
    rw [List.filter_eq_nil_iff]
    intro a ha
    have hself : (tk.any fun r => r.equalsDyn (.stored a)) = true :=
      List.any_eq_true.mpr ⟨a, ha, equalsDyn_self a⟩
    simp [hself]
  have h2 : (dr.filter fun item => !(tk.any fun r => r.equalsDyn (.stored item))) = dr := by
    rw [List.filter_eq_self]
    intro a ha
    have hnone : (tk.any fun r => r.equalsDyn (.stored a)) = false := by
      rw [List.any_eq_false]
      intro t ht
      have hta := hkeys t (List.mem_append.mpr (Or.inl ht))
      have haa := hkeys a (List.mem_append.mpr (Or.inr ha))
      obtain ⟨kt, hkt⟩ := Option.isSome_iff_exists.mp hta
      obtain ⟨ka, hka⟩ := Option.isSome_iff_exists.mp haa
      have hne : kt ≠ ka := by
        intro heq
        have hdisj := List.disjoint_of_nodup_append
          (by rwa [List.map_append] at hnodup)
        apply hdisj (List.mem_map_of_mem _ ht)
        have hkey : t.idb_key = a.idb_key := by rw [hkt, hka, heq]
        rw [hkey]
        exact List.mem_map_of_mem _ ha
      simp [StoredEvent.equalsDyn, hkt, hka, hne]
    simp [hnone]
  rw [h1, h2, List.nil_append]

theorem remove_take_items {V : Type} [DecidableEq V] (s : WebStore V) (n : Nat)
    (hkeys : ∀ e ∈ s.items, e.idb_key.isSome)
    (hnodup : (s.items.map StoredEvent.idb_key).Nodup) :
    (s.remove (s.items.take n)).items = s.items.drop n := by
  have h := filter_not_any_take_drop (s.items.take n) (s.items.drop n)
    (by rw [List.take_append_drop]; exact hkeys)
    (by rw [List.take_append_drop]; exact hnodup)
  calc (s.remove (s.items.take n)).items
      = s.items.filter (fun item =>
          !((s.items.take n).any fun r => r.equalsDyn (.stored item))) := rfl
    _ = (s.items.take n ++ s.items.drop n).filter (fun item =>
          !((s.items.take n).any fun r => r.equalsDyn (.stored item))) := by
        rw [List.take_append_drop]
    _ = s.items.drop n := h

/-- C3: tokens obtained from a fetch remove exactly the fetched items —
the fetched head segment — leaving the remaining items in their original
relative order, and a subsequent fetch can never return a removed item
again.  The two hypotheses hold in every reachable store
(`runOps_wellFormed`): every queued item carries an IndexedDB key, and
keys are pairwise distinct. -/
theorem webstore_C3_remove_fetched {V : Type} [DecidableEq V] (vsize : V → Nat)
    (s : WebStore V)
    (hkeys : ∀ e ∈ s.items, e.idb_key.isSome)
    (hnodup : (s.items.map StoredEvent.idb_key).Nodup)
    (c b : Option Nat) (res : DataResult V) (toks : List (StoredEvent V))
    (hfetch : (WebStore.fetch vsize s c b).1 = some res)
    (htoks : res.removable = some toks) :
    toks = s.items.take toks.length
    ∧ (s.remove toks).items = s.items.drop toks.length
    ∧ ∀ c2 b2 res2 toks2, (WebStore.fetch vsize (s.remove toks) c2 b2).1 = some res2 →
        res2.removable = some toks2 → ∀ e ∈ toks, e ∉ toks2 := by
  have hf := fetch_fst_eq vsize s c b
  rw [hf] at hfetch
  by_cases h0 : fetchNumItems vsize c (b.getD s.config.max_fetch_size) s.items 0 0 = 0
  · rw [if_pos h0] at hfetch
    exact absurd hfetch (by simp)
  · rw [if_neg h0] at hfetch
    injection hfetch with hfetch
    subst hfetch
    simp only [Option.some.injEq] at htoks
    have hNle : fetchNumItems vsize c (b.getD s.config.max_fetch_size) s.items 0 0
        ≤ s.items.length := by
      have := fetchNumItems_le vsize c (b.getD s.config.max_fetch_size) s.items 0 0
      omega
    have hlen : toks.length
        = fetchNumItems vsize c (b.getD s.config.max_fetch_size) s.items 0 0 := by
      rw [← htoks, List.length_take]
      omega
    have hp1 : toks = s.items.take toks.length := by
      rw [hlen]
      exact htoks.symm
    have hp2 : (s.remove toks).items = s.items.drop toks.length := by
      rw [hlen, ← htoks]
      exact remove_take_items s _ hkeys hnodup
    refine ⟨hp1, hp2, ?_⟩
    intro c2 b2 res2 toks2 hfetch2 htoks2 e he hein
    have hf2 := fetch_fst_eq vsize (s.remove toks) c2 b2
    rw [hf2] at hfetch2
    by_cases h02 : fetchNumItems vsize c2 (b2.getD (s.remove toks).config.max_fetch_size)
        (s.remove toks).items 0 0 = 0
    · rw [if_pos h02] at hfetch2
      exact absurd hfetch2 (by simp)
    · rw [if_neg h02] at hfetch2
      injection hfetch2 with hfetch2
      subst hfetch2
      simp only [Option.some.injEq] at htoks2
      rw [← htoks2] at hein
      have hein' : e ∈ (s.remove toks).items := List.take_subset _ _ hein
      rw [hp2, hlen] at hein'
      have hetake : e ∈ s.items.take
          (fetchNumItems vsize c (b.getD s.config.max_fetch_size) s.items 0 0) := by
        rw [htoks]
        exact he
      exact take_drop_key_disjoint hnodup _ e hetake e hein' rfl

/-- Witness for C3: fetch the two oldest of four items, remove them,
fetch again — the second batch is disjoint from the first. -/
theorem webstore_C3_remove_fetched_witness :
    (∀ e ∈ storeA.items, e.idb_key.isSome)
    ∧ ((storeA.items.map StoredEvent.idb_key).Nodup)
    ∧ toksA = storeA.items.take toksA.length
    ∧ (storeA.remove toksA).items = storeA.items.drop toksA.length
    ∧ (∀ e ∈ toksA, e ∉ toksA2) :=
  ⟨by decide, by decide,
    (webstore_C3_remove_fetched natSize storeA (by decide) (by decide) (some 2) none
      resA toksA (by decide) (by decide)).1,
    (webstore_C3_remove_fetched natSize storeA (by decide) (by decide) (some 2) none
      resA toksA (by decide) (by decide)).2.1,
    (webstore_C3_remove_fetched natSize storeA (by decide) (by decide) (some 2) none
      resA toksA (by decide) (by decide)).2.2 (some 2) none resA2 toksA2
      (by decide) (by decide)⟩

/-! ## Well-formedness holds in every reachable store -/

theorem wellFormed_append {V : Type} (s : WebStore V) (v : V) (h : wellFormed s) :
    wellFormed (s.append v) := by
  obtain ⟨hk, hn⟩ := h
  constructor
  · intro e he
    have hsub : (s.append v).items
        ⊆ s.items ++ [{ idb_key := some s.temp_key_counter, value := v }] := by
      rw [append_items]
      unfold lastN
      exact List.drop_subset _ _
    rcases List.mem_append.mp (hsub he) with hmem | hmem
    · obtain ⟨k, hk1, hk2⟩ := hk e hmem
      exact ⟨k, hk1, Nat.lt_succ_of_lt hk2⟩
    · simp only [List.mem_singleton] at hmem
      subst hmem
      exact ⟨s.temp_key_counter, rfl, Nat.lt_succ_self _⟩
  · rw [append_items, map_lastN]
    unfold lastN
    apply List.Nodup.sublist (List.drop_sublist _ _)
    rw [List.map_append]
    apply List.Nodup.append hn (by simp)
    intro a ha hb
    simp only [List.map_cons, List.map_nil, List.mem_singleton] at hb
    subst hb
    obtain ⟨e, hemem, hekey⟩ := List.mem_map.mp ha
    obtain ⟨k, hk1, hk2⟩ := hk e hemem
    rw [hk1] at hekey
    injection hekey with heq
    omega

theorem wellFormed_remove {V : Type} [DecidableEq V] (s : WebStore V)
    (ts : List (StoredEvent V)) (h : wellFormed s) : wellFormed (s.remove ts) := by
  obtain ⟨hk, hn⟩ := h
  constructor
  · intro e he
    exact hk e (List.mem_filter.mp he).1
  · exact List.Nodup.sublist ((List.filter_sublist _).map _) hn

theorem wellFormed_applyOp {V : Type} [DecidableEq V] (vsize : V → Nat) (s : WebStore V)
    (op : Op V) (h : wellFormed s) : wellFormed (applyOp vsize s op) := by
  cases op with
  | append v => exact wellFormed_append s v h
  | fetch c b =>
    show wellFormed (WebStore.fetch vsize s c b).2
    rw [fetch_snd]
    exact h
  | remove ts => exact wellFormed_remove s ts h
  | reset =>
    constructor
    · intro e he
      simp [applyOp, WebStore.reset] at he
    · simp [applyOp, WebStore.reset]

/-- Every store reachable from construction through the synchronous
operations satisfies `wellFormed`, so the hypotheses of the C3 theorem
hold in every reachable state. -/
theorem runOps_wellFormed {V : Type} [DecidableEq V] (vsize : V → Nat) :
    ∀ (ops : List (Op V)) (s : WebStore V), wellFormed s →
      wellFormed (runOps vsize s ops) := by
  intro ops
  induction ops with
  | nil => intro s h; exact h
  | cons op rest ih =>
    intro s h
    rw [runOps_cons]
    exact ih _ (wellFormed_applyOp vsize s op h)

/-- A freshly constructed store is well-formed. -/
theorem new_wellFormed {V : Type} {cfg : WebConfig} {avail : Bool} {s0 : WebStore V}
    (h : WebStore.new cfg avail = some s0) : wellFormed s0 := by
  obtain ⟨-, hi, -⟩ := new_some_elim h
  constructor
  · intro e he
    rw [hi] at he
    simp at he
  · rw [hi]
    simp

end TransientDb
